import Mathlib

/-!
Shallow embedding of the `tranquility` HTTP adapter (files `handler.go`,
`options.go`, `codec.go`).

Modelling conventions:
* A Go `error` value is `Option GoError`: `none` is the nil error, and
  `some e` carries the message returned by `Error()`.
* Pointers `*In` / `*Out` handed around by the adapter: the freshly
  allocated `new(In)` is the `Inhabited.default` zero value; the `*Out`
  returned by the typed handler may be nil, hence `Option Out`.
* `context.Context` is the inductive `Context`: `background` plus
  `withValue` frames, with `value`, `deadline` and `done` observers.
* The response writer is accumulated into a `Response` record; Go's
  `http.Error` helper becomes `httpError` (it sets the two standard
  headers, writes the status, and prints the message with a trailing
  newline).  A Go panic (calling `Error()` on a nil error) is the `none`
  result of `ServeHTTP`.
-/

namespace Tranquility

/-- A non-nil Go `error`: the message its `Error()` method returns. -/
structure GoError where
  msg : String
deriving DecidableEq, Repr

/-- The parts of an inbound `*http.Request` the adapter can observe:
method, URL path, request headers, the body bytes delivered by
`io.ReadAll`, and whether that read fails with an I/O error. -/
structure Request where
  method : String
  path : String
  reqHeaders : List (String × String)
  body : String
  bodyReadError : Bool
deriving DecidableEq, Repr

/-- `context.Context` as built by the adapter: the empty background
context and `context.WithValue` frames holding a request under a string
key. -/
inductive Context where
  | background : Context
  | withValue (parent : Context) (key : String) (val : Request) : Context
deriving DecidableEq, Repr

/-- `ctx.Value(key)`: innermost frame with a matching key wins;
`context.Background()` holds nothing. -/
def Context.value : Context → String → Option Request
  | .background, _ => none
  | .withValue parent k v, key => if key = k then some v else parent.value key

/-- `ctx.Deadline()`: the background context has no deadline and
`WithValue` inherits its parent's. -/
def Context.deadline : Context → Option Nat
  | .background => none
  | .withValue parent _ _ => parent.deadline

/-- `ctx.Done()` as a cancellation capability: the background context can
never be cancelled and `WithValue` inherits its parent's capability. -/
def Context.done : Context → Bool
  | .background => false
  | .withValue parent _ _ => parent.done

/-- `codec.go`: the `Codec[In, Out]` interface.  `Marshal` receives the
`*Out` (possibly nil); `Unmarshal` receives the body bytes and the fresh
`*In` it writes into, returning the updated value together with the Go
error. -/
structure Codec (In Out : Type) where
  marshal : Option Out → String × Option GoError
  unmarshal : String → In → In × Option GoError

/-- `handler.go`: the `Handler[In, Out]` struct, with the typed handler
and the three optional collaborators. -/
structure Handler (In Out : Type) where
  handler : Context → In → Option Out × Option GoError
  headerFunc : Option (Context → In → Option Out → List (String × String)) := none
  codec : Option (Codec In Out) := none
  errorHandler : Option (Context → GoError → Int × Option GoError) := none

/-- `options.go`: `WithCodec` sets the codec field. -/
def WithCodec {In Out : Type} (codec : Codec In Out) :
    Handler In Out → Handler In Out :=
  fun h => { h with codec := some codec }

/-- `options.go`: `WithHeaderFunc` sets the header-function field. -/
def WithHeaderFunc {In Out : Type}
    (headerFunc : Context → In → Option Out → List (String × String)) :
    Handler In Out → Handler In Out :=
  fun h => { h with headerFunc := some headerFunc }

/-- `options.go`: `WithErrorHandler` sets the error-mapper field. -/
def WithErrorHandler {In Out : Type}
    (errorHandler : Context → GoError → Int × Option GoError) :
    Handler In Out → Handler In Out :=
  fun h => { h with errorHandler := some errorHandler }

/-- `handler.go`: `NewHandler` stores the typed handler and applies the
options to the under-construction adapter in the order supplied. -/
def NewHandler {In Out : Type}
    (handler : Context → In → Option Out × Option GoError)
    (opts : List (Handler In Out → Handler In Out)) : Handler In Out :=
  opts.foldl (fun h opt => opt h) { handler := handler }

/-- The accumulated HTTP response: status code, response headers in the
order they were first set, and the body bytes written. -/
structure Response where
  status : Int
  headers : List (String × String)
  body : String
deriving DecidableEq, Repr

/-- `w.Header().Set(k, v)`: replace the value of an existing key,
otherwise append the pair. -/
def setHeader : List (String × String) → String → String → List (String × String)
  | [], k, v => [(k, v)]
  | p :: rest, k, v => if p.1 = k then (k, v) :: rest else p :: setHeader rest k v

/-- Apply a computed header mapping pair by pair via `w.Header().Set`. -/
def applyHeaders (hs : List (String × String)) (m : List (String × String)) :
    List (String × String) :=
  m.foldl (fun acc kv => setHeader acc kv.1 kv.2) hs

/-- Look a header up on a finished response. -/
def Response.getHeader (resp : Response) (k : String) : Option String :=
  (resp.headers.find? (fun p => p.1 = k)).map Prod.snd

/-- `net/http`'s `http.Error(w, msg, code)`: sets the two standard
diagnostic headers, writes the status code, and prints the message
followed by a newline. -/
def httpError (msg : String) (code : Int) : Response :=
  { status := code
  , headers := [("Content-Type", "text/plain; charset=utf-8"),
                ("X-Content-Type-Options", "nosniff")]
  , body := msg ++ "\n" }

/-- The request-scoped context built at the top of `ServeHTTP`:
`context.WithValue(context.Background(), "request", r)`. -/
def requestContext (r : Request) : Context :=
  Context.withValue Context.background "request" r

/-- The decode step of `ServeHTTP`: the configured codec's `Unmarshal`
when one is set, otherwise default `json.Unmarshal` (`jsonCodec` stands
for `encoding/json` at these types); the destination is the zero value
`new(In)`. -/
def decodeBody {In Out : Type} [Inhabited In] (jsonCodec : Codec In Out)
    (codec : Option (Codec In Out)) (body : String) : In × Option GoError :=
  match codec with
  | some c => c.unmarshal body default
  | none => jsonCodec.unmarshal body default

/-- The encode step of `ServeHTTP`: the configured codec's `Marshal` when
one is set, otherwise default `json.Marshal`. -/
def encodeBody {In Out : Type} (jsonCodec : Codec In Out)
    (codec : Option (Codec In Out)) (out : Option Out) : String × Option GoError :=
  match codec with
  | some c => c.marshal out
  | none => jsonCodec.marshal out

/-- `handler.go`: `Handler.ServeHTTP`.  `jsonCodec` models the default
`encoding/json` marshalling at the instantiated types.  The result is
`none` exactly when the method panics (the only panic site is calling
`Error()` on the nil error an error mapper may return); otherwise it is
the single response written.

Control flow mirrors the source: build the context; read the body (400 on
read error); decode (400 on error); invoke the typed handler; on a
non-nil handler error with a configured error mapper, write the mapped
error and stop; otherwise fall through to encode the output (500 on
error), apply the header function's headers, and write the bytes with the
implicit 200 status. -/
def ServeHTTP {In Out : Type} [Inhabited In] (jsonCodec : Codec In Out)
    (h : Handler In Out) (r : Request) : Option Response :=
  if r.bodyReadError then
    some (httpError "unable to read request body" 400)
  else
    match decodeBody jsonCodec h.codec r.body with
    | (_, some _) => some (httpError "unable to unmarshal request body" 400)
    | (inVal, none) =>
      match h.handler (requestContext r) inVal, h.errorHandler with
      | (_, some e), some errMap =>
        match errMap (requestContext r) e with
        | (resCode, some resErr) => some (httpError resErr.msg resCode)
        | (_, none) => none
      | (out, _), _ =>
        match encodeBody jsonCodec h.codec out with
        | (_, some _) => some (httpError "unable to marshal response" 500)
        | (resultBytes, none) =>
          some { status := 200
               , headers :=
                   match h.headerFunc with
                   | some hf => applyHeaders [] (hf (requestContext r) inVal out)
                   | none => []
               , body := resultBytes }

/-- `Handler.ServeHTTP` with the receiver threaded explicitly, the
state-passing reading of the Go method on its pointer receiver: every
exit returns the receiver alongside the response, since no statement of
the method assigns to any field of `h`. -/
def ServeHTTPSt {In Out : Type} [Inhabited In] (jsonCodec : Codec In Out)
    (h : Handler In Out) (r : Request) : Handler In Out × Option Response :=
  if r.bodyReadError then
    (h, some (httpError "unable to read request body" 400))
  else
    match decodeBody jsonCodec h.codec r.body with
    | (_, some _) => (h, some (httpError "unable to unmarshal request body" 400))
    | (inVal, none) =>
      match h.handler (requestContext r) inVal, h.errorHandler with
      | (_, some e), some errMap =>
        match errMap (requestContext r) e with
        | (resCode, some resErr) => (h, some (httpError resErr.msg resCode))
        | (_, none) => (h, none)
      | (out, _), _ =>
        match encodeBody jsonCodec h.codec out with
        | (_, some _) => (h, some (httpError "unable to marshal response" 500))
        | (resultBytes, none) =>
          (h, some { status := 200
                   , headers :=
                       match h.headerFunc with
                       | some hf => applyHeaders [] (hf (requestContext r) inVal out)
                       | none => []
                   , body := resultBytes })

/-- The three option shapes `options.go` exports, as data so that lists
of applied options can be reasoned about. -/
inductive HOpt (In Out : Type) where
  | codec (c : Codec In Out)
  | header (hf : Context → In → Option Out → List (String × String))
  | errMap (eh : Context → GoError → Int × Option GoError)

/-- Interpret an option shape as the corresponding `options.go`
constructor. -/
def HOpt.toOpt {In Out : Type} : HOpt In Out → (Handler In Out → Handler In Out)
  | .codec c => WithCodec c
  | .header hf => WithHeaderFunc hf
  | .errMap eh => WithErrorHandler eh

/-- The codec held after applying a list of options left to right on top
of a current value: the last `WithCodec` wins. -/
def lastCodec {In Out : Type} (acc : Option (Codec In Out)) :
    List (HOpt In Out) → Option (Codec In Out)
  | [] => acc
  | .codec c :: rest => lastCodec (some c) rest
  | _ :: rest => lastCodec acc rest

/-- The header function held after applying a list of options left to
right on top of a current value: the last `WithHeaderFunc` wins. -/
def lastHeaderFunc {In Out : Type}
    (acc : Option (Context → In → Option Out → List (String × String))) :
    List (HOpt In Out) → Option (Context → In → Option Out → List (String × String))
  | [] => acc
  | .header hf :: rest => lastHeaderFunc (some hf) rest
  | _ :: rest => lastHeaderFunc acc rest

/-- The error mapper held after applying a list of options left to right
on top of a current value: the last `WithErrorHandler` wins. -/
def lastErrMap {In Out : Type}
    (acc : Option (Context → GoError → Int × Option GoError)) :
    List (HOpt In Out) → Option (Context → GoError → Int × Option GoError)
  | [] => acc
  | .errMap eh :: rest => lastErrMap (some eh) rest
  | _ :: rest => lastErrMap acc rest

theorem setHeader_find?_self (hs : List (String × String)) (k v : String) :
    (setHeader hs k v).find? (fun p => p.1 = k) = some (k, v) := by
  induction hs with
  | nil => simp [setHeader]
  | cons p rest ih =>
    by_cases hpk : p.1 = k
    · simp [setHeader, hpk]
    · simp [setHeader, hpk, List.find?, ih]

theorem setHeader_find?_other (hs : List (String × String)) (k v k' : String)
    (hne : k' ≠ k) :
    (setHeader hs k v).find? (fun p => p.1 = k') = hs.find? (fun p => p.1 = k') := by
  induction hs with
  | nil =>
    rw [setHeader, List.find?_cons_of_neg _ (by simp [Ne.symm hne])]
  | cons p rest ih =>
    rw [setHeader]
    by_cases hpk : p.1 = k
    · rw [if_pos hpk,
        List.find?_cons_of_neg _ (by simp [Ne.symm hne]),
        List.find?_cons_of_neg _ (by simp [hpk, Ne.symm hne])]
    · rw [if_neg hpk]
      by_cases hpk' : p.1 = k'
      · rw [List.find?_cons_of_pos _ (by simp [hpk']),
          List.find?_cons_of_pos _ (by simp [hpk'])]
      · rw [List.find?_cons_of_neg _ (by simp [hpk']),
          List.find?_cons_of_neg _ (by simp [hpk']), ih]

theorem applyHeaders_find?_not_mem (hs : List (String × String))
    (m : List (String × String)) (k : String) (hk : ∀ kv ∈ m, kv.1 ≠ k) :
    (applyHeaders hs m).find? (fun p => p.1 = k) = hs.find? (fun p => p.1 = k) := by
  induction m generalizing hs with
  | nil => simp [applyHeaders]
  | cons kv rest ih =>
    have h1 : ∀ kv' ∈ rest, kv'.1 ≠ k := fun kv' hmem => hk kv' (List.mem_cons_of_mem _ hmem)
    have h2 : kv.1 ≠ k := hk kv (List.mem_cons_self _ _)
    show (applyHeaders (setHeader hs kv.1 kv.2) rest).find? _ = _
    rw [ih _ h1, setHeader_find?_other _ _ _ _ (Ne.symm h2)]

theorem applyHeaders_find?_mem (hs : List (String × String))
    (m : List (String × String)) (hnd : (m.map Prod.fst).Nodup) :
    ∀ kv ∈ m, (applyHeaders hs m).find? (fun p => p.1 = kv.1) = some kv := by
  induction m generalizing hs with
  | nil => intro kv hmem; simp at hmem
  | cons hd rest ih =>
    intro kv hmem
    rw [List.map_cons, List.nodup_cons] at hnd
    rcases List.mem_cons.mp hmem with heq | hmem'
    · subst heq
      have hrest : ∀ kv' ∈ rest, kv'.1 ≠ kv.1 := by
        intro kv' hmem' heq
        exact hnd.1 (heq ▸ List.mem_map_of_mem Prod.fst hmem')
      show (applyHeaders (setHeader hs kv.1 kv.2) rest).find? _ = _
      rw [applyHeaders_find?_not_mem _ _ _ hrest, setHeader_find?_self]
    · exact ih _ hnd.2 kv hmem'

/-- A concrete model of default `encoding/json` at `In = Out = Nat`, used
to instantiate theorems on concrete inputs: unmarshal rejects an empty
body (as `json.Unmarshal` rejects empty input) and otherwise decodes the
body length, marshal prints the number, and a nil output pointer
marshals to the string null exactly as `json.Marshal` renders a nil
pointer. -/
def natJson : Codec Nat Nat :=
  { marshal := fun o =>
      match o with
      | some n => (toString n, none)
      | none => ("null", none)
  , unmarshal := fun s d =>
      if s = "" then (d, some { msg := "unexpected end of JSON input" })
      else (s.length, none) }

/-- A typed handler that always fails with message boom, wrapped with no
options at all (no codec, no header function, no error mapper). -/
def unmappedFailureHandler : Handler Nat Nat :=
  { handler := fun _ _ => (none, some { msg := "boom" }) }

/-- A well-formed request whose body decodes successfully. -/
def plainRequest : Request :=
  { method := "GET", path := "/hello", reqHeaders := [], body := "7"
  , bodyReadError := false }

/-- Claim C1: the claim states that an unmapped handler failure yields
status 500 with the original failure message and no further processing.
The code does not do this: with no error mapper configured it falls
through, marshals the nil output, and writes it with the implicit 200
status.  At this input the handler fails with boom, yet the adapter
responds 200 with body null and performs the whole encode/header/write
tail. -/
theorem serveHTTP_unmapped_failure_continues :
    ServeHTTP natJson unmappedFailureHandler plainRequest =
      some { status := 200, headers := [], body := "null" } := by
  decide

/-- Claim C3: if the body fails to decode (configured codec or default
JSON), the response is exactly status 400 with body
unable-to-unmarshal-request-body plus a trailing newline, and the typed
handler is never invoked (the result does not depend on the handler
function at all). -/
theorem serveHTTP_decode_failure {In Out : Type} [Inhabited In]
    (jsonCodec : Codec In Out) (h : Handler In Out) (r : Request) (e : GoError)
    (hread : r.bodyReadError = false)
    (hdec : (decodeBody jsonCodec h.codec r.body).2 = some e) :
    ServeHTTP jsonCodec h r = some (httpError "unable to unmarshal request body" 400) ∧
    (httpError "unable to unmarshal request body" 400).status = 400 ∧
    (httpError "unable to unmarshal request body" 400).body =
      "unable to unmarshal request body\n" ∧
    ∀ f, ServeHTTP jsonCodec { h with handler := f } r =
      some (httpError "unable to unmarshal request body" 400) := by
  rcases hDB : decodeBody jsonCodec h.codec r.body with ⟨i, oe⟩
  rw [hDB] at hdec
  simp only at hdec
  subst hdec
  refine ⟨?_, rfl, rfl, fun f => ?_⟩
  · simp [ServeHTTP, hread, hDB]
  · simp [ServeHTTP, hread, hDB]

/-- Claim C4: a handler failure with a configured error mapper returning
status S and a non-nil error with message M is answered with exactly
status S and body M plus a trailing newline; the response carries only
the two fixed diagnostic headers, never anything from the header
function (which is arbitrary here and absent from the conclusion). -/
theorem serveHTTP_mapped_error {In Out : Type} [Inhabited In]
    (jsonCodec : Codec In Out) (h : Handler In Out) (r : Request)
    (i : In) (o : Option Out) (e : GoError)
    (em : Context → GoError → Int × Option GoError) (S : Int) (M : String)
    (hread : r.bodyReadError = false)
    (hdec : decodeBody jsonCodec h.codec r.body = (i, none))
    (hh : h.handler (requestContext r) i = (o, some e))
    (hEH : h.errorHandler = some em)
    (hmap : em (requestContext r) e = (S, some { msg := M })) :
    ServeHTTP jsonCodec h r = some (httpError M S) ∧
    (httpError M S).status = S ∧
    (httpError M S).body = M ++ "\n" ∧
    (httpError M S).headers = [("Content-Type", "text/plain; charset=utf-8"),
                               ("X-Content-Type-Options", "nosniff")] ∧
    ∀ hf, ServeHTTP jsonCodec { h with headerFunc := hf } r = some (httpError M S) := by
  refine ⟨?_, rfl, rfl, rfl, fun hf => ?_⟩
  · simp [ServeHTTP, hread, hdec, hh, hEH, hmap]
  · simp [ServeHTTP, hread, hdec, hh, hEH, hmap]

/-- Claim C5: when encoding the output fails (configured codec or
default JSON), on either path that reaches the encode step (handler
success, or handler failure without an error mapper), the response is
exactly status 500 with the fixed body unable-to-marshal-response plus a
trailing newline; only the two fixed diagnostic headers are present and
nothing further is written, whatever the header function is. -/
theorem serveHTTP_encode_failure {In Out : Type} [Inhabited In]
    (jsonCodec : Codec In Out) (h : Handler In Out) (r : Request)
    (i : In) (o : Option Out) (herr : Option GoError) (e : GoError)
    (hread : r.bodyReadError = false)
    (hdec : decodeBody jsonCodec h.codec r.body = (i, none))
    (hh : h.handler (requestContext r) i = (o, herr))
    (hpath : herr = none ∨ h.errorHandler = none)
    (henc : (encodeBody jsonCodec h.codec o).2 = some e) :
    ServeHTTP jsonCodec h r = some (httpError "unable to marshal response" 500) ∧
    (httpError "unable to marshal response" 500).body = "unable to marshal response\n" ∧
    (httpError "unable to marshal response" 500).headers =
      [("Content-Type", "text/plain; charset=utf-8"),
       ("X-Content-Type-Options", "nosniff")] ∧
    ∀ hf, ServeHTTP jsonCodec { h with headerFunc := hf } r =
      some (httpError "unable to marshal response" 500) := by
  rcases hEB : encodeBody jsonCodec h.codec o with ⟨bs, oe⟩
  rw [hEB] at henc
  simp only at henc
  subst henc
  rcases hpath with hherr | hEH
  · subst hherr
    exact ⟨by simp [ServeHTTP, hread, hdec, hh, hEB], rfl, rfl,
      fun hf => by simp [ServeHTTP, hread, hdec, hh, hEB]⟩
  · rcases herr with _ | e0
    · exact ⟨by simp [ServeHTTP, hread, hdec, hh, hEB], rfl, rfl,
        fun hf => by simp [ServeHTTP, hread, hdec, hh, hEB]⟩
    · exact ⟨by simp [ServeHTTP, hread, hdec, hh, hEH, hEB], rfl, rfl,
        fun hf => by simp [ServeHTTP, hread, hdec, hh, hEH, hEB]⟩

/-- Claim C9: the mapped-error path is not total: when the typed handler
fails and the configured error mapper returns a nil error, `ServeHTTP`
calls the nil error's message method and panics (result none) instead of
writing any response; the no-unhandled-error guarantee therefore needs
the mapper never to return a nil error. -/
theorem serveHTTP_nil_mapped_error {In Out : Type} [Inhabited In]
    (jsonCodec : Codec In Out) (h : Handler In Out) (r : Request)
    (i : In) (o : Option Out) (e : GoError)
    (em : Context → GoError → Int × Option GoError) (c : Int)
    (hread : r.bodyReadError = false)
    (hdec : decodeBody jsonCodec h.codec r.body = (i, none))
    (hh : h.handler (requestContext r) i = (o, some e))
    (hEH : h.errorHandler = some em)
    (hmap : em (requestContext r) e = (c, none)) :
    ServeHTTP jsonCodec h r = none := by
  simp [ServeHTTP, hread, hdec, hh, hEH, hmap]

/-- Claim C2: when the body decodes and the typed handler succeeds (nil
error) and the encode step succeeds, the response has status 200, its
body is exactly the configured or default encoding of the handler's
output, and every pair returned by a configured header function (whose
keys, coming from a Go map, are distinct) is present on the response
exactly as returned. -/
theorem serveHTTP_success {In Out : Type} [Inhabited In]
    (jsonCodec : Codec In Out) (h : Handler In Out) (r : Request)
    (i : In) (o : Option Out) (bs : String)
    (hread : r.bodyReadError = false)
    (hdec : decodeBody jsonCodec h.codec r.body = (i, none))
    (hh : h.handler (requestContext r) i = (o, none))
    (henc : encodeBody jsonCodec h.codec o = (bs, none)) :
    ∃ resp, ServeHTTP jsonCodec h r = some resp ∧
      resp.status = 200 ∧ resp.body = bs ∧
      ∀ hf, h.headerFunc = some hf →
        ((hf (requestContext r) i o).map Prod.fst).Nodup →
        ∀ kv ∈ hf (requestContext r) i o, resp.getHeader kv.1 = some kv.2 := by
  rcases hHF : h.headerFunc with _ | hf0
  · refine ⟨{ status := 200, headers := [], body := bs }, ?_, rfl, rfl, ?_⟩
    · simp [ServeHTTP, hread, hdec, hh, henc, hHF]
    · intro hf hcontra
      exact absurd hcontra (by simp)
  · refine ⟨{ status := 200
            , headers := applyHeaders [] (hf0 (requestContext r) i o)
            , body := bs }, ?_, rfl, rfl, ?_⟩
    · simp [ServeHTTP, hread, hdec, hh, henc, hHF]
    · intro hf hsome hnd kv hmem
      injection hsome with hsome
      subst hsome
      show ((applyHeaders [] (hf0 (requestContext r) i o)).find?
        (fun p => p.1 = kv.1)).map Prod.snd = some kv.2
      rw [applyHeaders_find?_mem [] _ hnd kv hmem]
      rfl

/-- Interpreting a list of the three exported option shapes in order on
top of a starting adapter yields the starting typed handler and, for
each optional field, the value set by the last option that targets it
(or the starting value when none does). -/
theorem foldl_hopts {In Out : Type} (h0 : Handler In Out) (opts : List (HOpt In Out)) :
    (opts.map HOpt.toOpt).foldl (fun h opt => opt h) h0 =
      { handler := h0.handler
      , headerFunc := lastHeaderFunc h0.headerFunc opts
      , codec := lastCodec h0.codec opts
      , errorHandler := lastErrMap h0.errorHandler opts } := by
  induction opts generalizing h0 with
  | nil => simp [lastCodec, lastHeaderFunc, lastErrMap]
  | cons o rest ih =>
    cases o <;>
      simp [HOpt.toOpt, WithCodec, WithHeaderFunc, WithErrorHandler,
        lastCodec, lastHeaderFunc, lastErrMap, ih]

/-- Claim C6: `NewHandler` applies the supplied options to the adapter in
the order given; the typed handler is the one supplied, and each of the
three configurable fields ends up holding exactly the value set by the
last option targeting it (later options overwrite earlier ones, no
merging), or stays unset if no option targets it. -/
theorem newHandler_applies_options_in_order {In Out : Type}
    (f : Context → In → Option Out × Option GoError) (opts : List (HOpt In Out)) :
    (NewHandler f (opts.map HOpt.toOpt)).handler = f ∧
    (NewHandler f (opts.map HOpt.toOpt)).codec = lastCodec none opts ∧
    (NewHandler f (opts.map HOpt.toOpt)).headerFunc = lastHeaderFunc none opts ∧
    (NewHandler f (opts.map HOpt.toOpt)).errorHandler = lastErrMap none opts := by
  rw [NewHandler, foldl_hopts]
  exact ⟨rfl, rfl, rfl, rfl⟩

/-- Claim C7: the context handed to every collaborator is
`context.WithValue(context.Background(), "request", r)`: it is derived
from the empty background context, carries no deadline and no
cancellation, and yields the original raw request under the fixed key
request; consequently, if two handler/header-function/error-mapper
triples agree at that one context, `ServeHTTP` cannot tell them
apart. -/
theorem serveHTTP_request_context {In Out : Type} [Inhabited In]
    (jsonCodec : Codec In Out) (cd : Option (Codec In Out)) (r : Request)
    (f g : Context → In → Option Out × Option GoError)
    (hf hg : Context → In → Option Out → List (String × String))
    (ef eg : Context → GoError → Int × Option GoError)
    (hfg : ∀ i, f (requestContext r) i = g (requestContext r) i)
    (hhfg : ∀ i o, hf (requestContext r) i o = hg (requestContext r) i o)
    (hefg : ∀ e, ef (requestContext r) e = eg (requestContext r) e) :
    ServeHTTP jsonCodec ⟨f, some hf, cd, some ef⟩ r =
      ServeHTTP jsonCodec ⟨g, some hg, cd, some eg⟩ r ∧
    requestContext r = Context.withValue Context.background "request" r ∧
    (requestContext r).value "request" = some r ∧
    (requestContext r).deadline = none ∧
    (requestContext r).done = false := by
  refine ⟨?_, rfl, by simp [requestContext, Context.value], rfl, rfl⟩
  rw [ServeHTTP, ServeHTTP]
  by_cases hb : r.bodyReadError = true
  · simp [hb]
  · simp only [hb, Bool.false_eq_true, if_false]
    rcases hdec : decodeBody jsonCodec cd r.body with ⟨i, _ | de⟩
    · rcases hh : g (requestContext r) i with ⟨o, _ | e⟩
      · simp only [hfg i, hh]
        rcases henc : encodeBody jsonCodec cd o with ⟨bs, _ | ee⟩
        · simp [hhfg]
        · simp
      · simp only [hfg i, hh, hefg e]
    · simp

/-- Claim C8: request handling never writes to the adapter: the
state-passing reading of `ServeHTTP` returns the receiver exactly as it
was constructed, alongside the very response the plain model computes. -/
theorem serveHTTPSt_preserves_adapter {In Out : Type} [Inhabited In]
    (jsonCodec : Codec In Out) (h : Handler In Out) (r : Request) :
    ServeHTTPSt jsonCodec h r = (h, ServeHTTP jsonCodec h r) := by
  by_cases hb : r.bodyReadError = true
  · simp [ServeHTTPSt, ServeHTTP, hb]
  · rcases hdec : decodeBody jsonCodec h.codec r.body with ⟨i, _ | de⟩
    · rcases hh : h.handler (requestContext r) i with ⟨o, _ | e⟩
      · rcases henc : encodeBody jsonCodec h.codec o with ⟨bs, _ | ee⟩ <;>
          simp [ServeHTTPSt, ServeHTTP, hb, hdec, hh, henc]
      · rcases hEH : h.errorHandler with _ | em
        · rcases henc : encodeBody jsonCodec h.codec o with ⟨bs, _ | ee⟩ <;>
            simp [ServeHTTPSt, ServeHTTP, hb, hdec, hh, hEH, henc]
        · rcases hmap : em (requestContext r) e with ⟨c, _ | re⟩ <;>
            simp [ServeHTTPSt, ServeHTTP, hb, hdec, hh, hEH, hmap]
    · simp [ServeHTTPSt, ServeHTTP, hb, hdec]

/-- Claim C10: the response depends only on the body bytes once the
collaborators ignore the context (hence never read the raw request out
of it): two requests with the same body and the same read outcome get
identical responses, whatever their method, path, or request headers. -/
theorem serveHTTP_body_determined {In Out : Type} [Inhabited In]
    (jsonCodec : Codec In Out) (h : Handler In Out) (r₁ r₂ : Request)
    (hbody : r₁.body = r₂.body)
    (hreadeq : r₁.bodyReadError = r₂.bodyReadError)
    (hH : ∀ c c' i, h.handler c i = h.handler c' i)
    (hHF : ∀ hf, h.headerFunc = some hf → ∀ c c' i o, hf c i o = hf c' i o)
    (hEH : ∀ em, h.errorHandler = some em → ∀ c c' e, em c e = em c' e) :
    ServeHTTP jsonCodec h r₁ = ServeHTTP jsonCodec h r₂ := by
  by_cases hb : r₂.bodyReadError = true
  · have hb1 : r₁.bodyReadError = true := hreadeq.trans hb
    simp [ServeHTTP, hb, hb1]
  · have hb1 : ¬r₁.bodyReadError = true := fun hc => hb (hreadeq.symm.trans hc)
    rcases hdec : decodeBody jsonCodec h.codec r₂.body with ⟨i, oe⟩
    have hdec1 : decodeBody jsonCodec h.codec r₁.body = (i, oe) := by
      rw [hbody, hdec]
    rcases oe with _ | de
    · rcases hh : h.handler (requestContext r₂) i with ⟨o, herr⟩
      have hh1 : h.handler (requestContext r₁) i = (o, herr) :=
        (hH (requestContext r₁) (requestContext r₂) i).trans hh
      rcases herr with _ | e
      · rcases henc : encodeBody jsonCodec h.codec o with ⟨bs, _ | ee⟩
        · rcases hHFo : h.headerFunc with _ | hf
          · simp [ServeHTTP, hb, hb1, hdec, hdec1, hh, hh1, henc, hHFo]
          · simp [ServeHTTP, hb, hb1, hdec, hdec1, hh, hh1, henc, hHFo,
              hHF hf hHFo (requestContext r₁) (requestContext r₂) i o]
        · simp [ServeHTTP, hb, hb1, hdec, hdec1, hh, hh1, henc]
      · rcases hEHo : h.errorHandler with _ | em
        · rcases henc : encodeBody jsonCodec h.codec o with ⟨bs, _ | ee⟩ <;>
          · rcases hHFo : h.headerFunc with _ | hf
            · simp [ServeHTTP, hb, hb1, hdec, hdec1, hh, hh1, hEHo, henc, hHFo]
            · simp [ServeHTTP, hb, hb1, hdec, hdec1, hh, hh1, hEHo, henc, hHFo,
                hHF hf hHFo (requestContext r₁) (requestContext r₂) i o]
        · simp [ServeHTTP, hb, hb1, hdec, hdec1, hh, hh1, hEHo,
            hEH em hEHo (requestContext r₁) (requestContext r₂) e]
    · simp [ServeHTTP, hb, hb1, hdec, hdec1]

/-- A concrete success-path adapter: the typed handler increments the
decoded value and a header function declares two distinct headers. -/
def okHandler : Handler Nat Nat :=
  { handler := fun _ n => (some (n + 1), none)
  , headerFunc := some (fun _ i o => [("x-in", toString i), ("x-out", toString (o.getD 0))]) }

/-- A request differing from plainRequest in method, path and request
headers but carrying the same body bytes. -/
def altRequest : Request :=
  { method := "POST", path := "/other", reqHeaders := [("x-a", "1")], body := "7"
  , bodyReadError := false }

/-- A request whose empty body fails to decode under natJson. -/
def badBodyRequest : Request :=
  { method := "GET", path := "/hello", reqHeaders := [], body := ""
  , bodyReadError := false }

/-- An adapter whose handler fails and whose error mapper keeps the
message while mapping the failure to status 400. -/
def mappedFailureHandler : Handler Nat Nat :=
  { handler := fun _ _ => (none, some { msg := "language not supported" })
  , headerFunc := some (fun _ _ _ => [("x-e", "1")])
  , errorHandler := some (fun _ e => ((400 : Int), some e)) }

/-- A codec whose marshal side always fails. -/
def badMarshalCodec : Codec Nat Nat :=
  { marshal := fun _ => ("", some { msg := "unsupported type" })
  , unmarshal := fun s d => natJson.unmarshal s d }

/-- An adapter configured with the failing-marshal codec. -/
def encodeFailureHandler : Handler Nat Nat :=
  { handler := fun _ n => (some n, none)
  , codec := some badMarshalCodec }

/-- An adapter whose error mapper returns a nil error. -/
def nilMapperHandler : Handler Nat Nat :=
  { handler := fun _ _ => (none, some { msg := "boom" })
  , errorHandler := some (fun _ _ => ((418 : Int), none)) }

/-- Claim C2, witnessed on a concrete request: body 7 decodes to 1, the
handler returns 2, the body is the encoding 2, and both declared headers
are present. -/
theorem serveHTTP_success_witness :
    ∃ resp, ServeHTTP natJson okHandler plainRequest = some resp ∧
      resp.status = 200 ∧ resp.body = "2" ∧
      ∀ hf, okHandler.headerFunc = some hf →
        ((hf (requestContext plainRequest) 1 (some 2)).map Prod.fst).Nodup →
        ∀ kv ∈ hf (requestContext plainRequest) 1 (some 2),
          resp.getHeader kv.1 = some kv.2 :=
  serveHTTP_success natJson okHandler plainRequest 1 (some 2) "2" rfl rfl rfl rfl

/-- Claim C3, witnessed on a concrete empty-body request. -/
theorem serveHTTP_decode_failure_witness :
    ServeHTTP natJson okHandler badBodyRequest =
      some (httpError "unable to unmarshal request body" 400) ∧
    (httpError "unable to unmarshal request body" 400).status = 400 ∧
    (httpError "unable to unmarshal request body" 400).body =
      "unable to unmarshal request body\n" ∧
    ∀ f, ServeHTTP natJson { okHandler with handler := f } badBodyRequest =
      some (httpError "unable to unmarshal request body" 400) :=
  serveHTTP_decode_failure natJson okHandler badBodyRequest
    { msg := "unexpected end of JSON input" } rfl rfl

/-- Claim C4, witnessed on a concrete failing handler with a mapper
sending the failure to 400 with its original message. -/
theorem serveHTTP_mapped_error_witness :
    ServeHTTP natJson mappedFailureHandler plainRequest =
      some (httpError "language not supported" 400) ∧
    (httpError "language not supported" 400).status = 400 ∧
    (httpError "language not supported" 400).body = "language not supported" ++ "\n" ∧
    (httpError "language not supported" 400).headers =
      [("Content-Type", "text/plain; charset=utf-8"),
       ("X-Content-Type-Options", "nosniff")] ∧
    ∀ hf, ServeHTTP natJson { mappedFailureHandler with headerFunc := hf } plainRequest =
      some (httpError "language not supported" 400) :=
  serveHTTP_mapped_error natJson mappedFailureHandler plainRequest 1 none
    { msg := "language not supported" } (fun _ e => ((400 : Int), some e)) 400
    "language not supported" rfl rfl rfl rfl rfl

/-- Claim C5, witnessed on a concrete codec whose marshal fails. -/
theorem serveHTTP_encode_failure_witness :
    ServeHTTP natJson encodeFailureHandler plainRequest =
      some (httpError "unable to marshal response" 500) ∧
    (httpError "unable to marshal response" 500).body = "unable to marshal response\n" ∧
    (httpError "unable to marshal response" 500).headers =
      [("Content-Type", "text/plain; charset=utf-8"),
       ("X-Content-Type-Options", "nosniff")] ∧
    ∀ hf, ServeHTTP natJson { encodeFailureHandler with headerFunc := hf } plainRequest =
      some (httpError "unable to marshal response" 500) :=
  serveHTTP_encode_failure natJson encodeFailureHandler plainRequest 1 (some 1) none
    { msg := "unsupported type" } rfl rfl rfl (Or.inl rfl) rfl

/-- Claim C7, witnessed with concrete collaborators that agree at the
request context. -/
theorem serveHTTP_request_context_witness :
    ServeHTTP natJson ⟨fun _ n => (some n, none), some fun _ _ _ => [], none,
        some fun _ e => ((500 : Int), some e)⟩ plainRequest =
      ServeHTTP natJson ⟨fun _ n => (some n, none), some fun _ _ _ => [], none,
        some fun _ e => ((500 : Int), some e)⟩ plainRequest ∧
    requestContext plainRequest =
      Context.withValue Context.background "request" plainRequest ∧
    (requestContext plainRequest).value "request" = some plainRequest ∧
    (requestContext plainRequest).deadline = none ∧
    (requestContext plainRequest).done = false :=
  serveHTTP_request_context natJson none plainRequest
    (fun _ n => (some n, none)) (fun _ n => (some n, none))
    (fun _ _ _ => []) (fun _ _ _ => [])
    (fun _ e => ((500 : Int), some e)) (fun _ e => ((500 : Int), some e))
    (fun _ => rfl) (fun _ _ => rfl) (fun _ => rfl)

/-- Claim C9, witnessed on a concrete mapper that returns a nil error:
the adapter panics (no response) on this request. -/
theorem serveHTTP_nil_mapped_error_witness :
    ServeHTTP natJson nilMapperHandler plainRequest = none :=
  serveHTTP_nil_mapped_error natJson nilMapperHandler plainRequest 1 none
    { msg := "boom" } (fun _ _ => ((418 : Int), none)) 418 rfl rfl rfl rfl rfl

/-- Claim C10, witnessed on two requests differing in method, path and
request headers but not in body. -/
theorem serveHTTP_body_determined_witness :
    ServeHTTP natJson okHandler plainRequest = ServeHTTP natJson okHandler altRequest :=
  serveHTTP_body_determined natJson okHandler plainRequest altRequest rfl rfl
    (fun _ _ _ => rfl)
    (fun hf heq => by
      injection heq with heq
      subst heq
      intro c c' i o
      rfl)
    (fun em heq => by simp [okHandler] at heq)

end Tranquility
